import Mathlib

/-! # The execution-context layer of `db/client.h`

A shallow embedding of `mongo::Client`, `mongo::Client::Context`,
`mongo::Client::GodScope` and `mongolock::releaseAndWriteLock` as they are
written in `src/db/client.h`, followed by theorems about them.

Conventions of the embedding.

* A C++ pointer is an `Option Nat`: `none` is the null pointer, `some a` is the
  address `a`.
* `Client` and `Context` objects are pointed to by other objects, so they live
  in typed memories (`World.clients`, `World.contexts`) and a member function
  takes the address `self` of its object.  `GodScope` and `mongolock` objects
  are not pointed to by any code embedded here, so their member functions take
  and return the object itself.
* A call that can end in a fatal condition returns the state it leaves behind
  together with an `Option Fault` (`none`: the call returned normally).  A C++
  exception leaves every write made before the throw in place, and so does
  the embedding.
* `std::string` is `List Char`.
-/

set_option linter.dupNamespace false

namespace mongo

/-- The C++ `std::string`: a finite sequence of characters. -/
abbrev Str := List Char

/-- The ways a call can end other than by returning. -/
inductive Fault where
  /-- An `assert( e )` whose condition was false. -/
  | asserted
  /-- The call `msgasserted( code , msg )`. -/
  | msgasserted (code : Nat)
  /-- A member access through a null pointer. -/
  | nullDeref
  /-- A `string::operator[]` past the end of the string. -/
  | outOfRange
  deriving DecidableEq

/-! ## Strings -/

/-- Whether `s` begins with `pat`. -/
def Str.startsWith : Str → Str → Bool
  | _, [] => true
  | [], _ :: _ => false
  | c :: s, p :: pat => c == p && Str.startsWith s pat

/-- The search loop of `string::find`: the first position at or after the
current one (numbered `i`) where `pat` occurs in `s`, `none` for `npos`. -/
def Str.findFrom : Str → Str → Nat → Option Nat
  | [], pat, i => if Str.startsWith [] pat then some i else none
  | c :: s, pat, i =>
    if Str.startsWith (c :: s) pat then some i else Str.findFrom s pat (i + 1)

/-- The call `s.find( pat )`, with `none` standing for `string::npos`. -/
def Str.find (s pat : Str) : Option Nat := Str.findFrom s pat 0

/-- The call `s[i]` on a `const string`: the character at `i`, the null
character at `i == s.size()`, undefined past that. -/
def Str.at (s : Str) (i : Nat) : Except Fault Char :=
  match s.get? i with
  | some ch => .ok ch
  | none => if i = s.length then .ok (Char.ofNat 0) else .error .outOfRange

/-! ## Objects -/

/-- The data members of `class Client` (`ai` and `top` are its public ones;
`top`, of the class `Top`, is kept as an uninterpreted value). -/
structure Client where
  _curOp : Option Nat
  _context : Option Nat
  _shutdown : Bool
  _tempCollections : List Str
  _desc : Str
  _god : Bool
  _prevDB : Option Nat
  ai : Option Nat
  top : Nat
  deriving DecidableEq

/-- The data members of `class Client::Context`. -/
structure Client.Context where
  _client : Option Nat
  _oldContext : Option Nat
  _path : Str
  _lock : Option Nat
  _justCreated : Bool
  _ns : Str
  _db : Option Nat
  deriving DecidableEq

/-- The data member of `class Client::GodScope`. -/
structure Client.GodScope where
  _prev : Bool
  deriving DecidableEq

/-- The member of `class mongolock` that `releaseAndWriteLock` reads and
writes (the class itself is declared outside `client.h`). -/
structure mongolock where
  _writelock : Bool
  deriving DecidableEq

/-- Modelled from the spec: the class `MongoMutex` of the global `dbMutex`,
which is declared outside `client.h`.  The spec gives the lock a queryable
holder state; `client.h` reads it as an `int` and tests it against `-1`.  The
state is the calling thread's hold: negative while it holds the lock shared
(`-n`: held `n` times), `0` while it holds nothing, positive while it holds
the lock exclusively. -/
structure MongoMutex where
  state : Int
  deriving DecidableEq

/-- Modelled from the spec: `currentState()`, the call `dbMutex.getState()`. -/
def MongoMutex.getState (m : MongoMutex) : Int := m.state

/-- Modelled from the spec: `releaseShared()`, the call
`dbMutex.unlock_shared()`.  One shared hold is released.  The spec describes
the call for a thread that holds the lock shared; in the other states the
embedding leaves the state as it is. -/
def MongoMutex.unlock_shared (m : MongoMutex) : MongoMutex :=
  if m.state < 0 then { m with state := m.state + 1 } else m

/-- Modelled from the spec: `acquireExclusive()`, the call `dbMutex.lock()`.
From the unlocked state the thread comes to hold the lock exclusively.  The
spec describes the call for a thread that holds nothing (waiting for other
threads is not part of the embedding); in the other states the embedding
leaves the state as it is. -/
def MongoMutex.lock (m : MongoMutex) : MongoMutex :=
  if m.state = 0 then { m with state := 1 } else m

/-- What one thread sees: its thread-local `currentClient`, the memories that
hold the `Client` and `Context` objects, the global `dbMutex`, the global
`dbpath`, and the database resolver.

`resolveOrCreate` is modelled from the spec (section 6, the external
Database resolver): given a path and a database name it yields the
`Database*` and whether the database was created by the call. -/
structure World where
  currentClient : Option Nat
  clients : Nat → Client
  contexts : Nat → Client.Context
  dbMutex : MongoMutex
  dbpath : Str
  resolveOrCreate : Str → Str → Option Nat × Bool

/-- The world with the `Client` at address `p` replaced by `c`. -/
def World.setClient (w : World) (p : Nat) (c : Client) : World :=
  { w with clients := fun q => if q = p then c else w.clients q }

/-- The world with the `Context` at address `p` replaced by `c`. -/
def World.setContext (w : World) (p : Nat) (c : Client.Context) : World :=
  { w with contexts := fun q => if q = p then c else w.contexts q }

/-- The outcome of a member function of an object held in memory. -/
structure Result where
  world : World
  fault : Option Fault

/-- The outcome of a member function of an object passed by value. -/
structure ObjResult (α : Type) where
  self : α
  world : World
  fault : Option Fault

/-! ## `Client::Context` -/

namespace Client.Context

/-- The member function `db()`. -/
def db (c : Client.Context) : Option Nat := c._db

/-- The member function `ns()`. -/
def ns (c : Client.Context) : Str := c._ns

/-- The member function `justCreated()`. -/
def justCreated (c : Client.Context) : Bool := c._justCreated

/-- The member function `equals( ns , path )`. -/
def equals (c : Client.Context) (ns path : Str) : Bool :=
  c._ns == ns && c._path == path

/-- The member function `inDB( db , path )`. -/
def inDB (c : Client.Context) (db path : Str) : Except Fault Bool :=
  if c._path != path then .ok false
  else if db == c._ns then .ok true
  else
    let idx := Str.find c._ns db
    if idx != some 0 then .ok false
    else (Str.at c._ns db.length).map (fun ch => ch == '.')

/-- The member function `clear()`. -/
def clear (w : World) (self : Nat) : World :=
  w.setContext self { w.contexts self with _ns := [], _db := none }

/-- The member function `unlocked()`. -/
def unlocked (w : World) (self : Nat) : World :=
  w.setContext self { w.contexts self with _db := none }

/-- Modelled from the spec: the root of a namespace, "the substring of X up to
the first `.`; if X itself names the root, root == X". -/
def nsRoot (ns : Str) : Str := ns.takeWhile (fun ch => ch != '.')

/-- Modelled from the spec: the member function `_finishInit()`, which
`client.h` declares and does not define.  Its declaration comment says "this
will set _db and create if needed; will also set _client->_context to this";
the spec says the constructor resolves or creates the database for the path
and the root of the namespace and records whether creation happened. -/
def _finishInit (w : World) (self : Nat) : Result :=
  let c := w.contexts self
  let r := w.resolveOrCreate c._path (nsRoot c._ns)
  let w1 := w.setContext self { c with _db := r.1, _justCreated := r.2 }
  match c._client with
  | none => ⟨w1, some .nullDeref⟩
  | some cl => ⟨w1.setClient cl { w1.clients cl with _context := some self }, none⟩

/-- The member function `relocked()`. -/
def relocked (w : World) (self : Nat) : Result := _finishInit w self

/-- The constructor `Context( ns , path , lock )`, building the object at the
address `self`.  The members `_justCreated` and `_db` have no initializer:
they keep what the storage held until `_finishInit` writes them. -/
def Context (w : World) (self : Nat) (ns path : Str) (lock : Option Nat) : Result :=
  match w.currentClient with
  | none => ⟨w, some .nullDeref⟩
  | some cl =>
    let g := w.contexts self
    let c : Client.Context :=
      { _client := some cl
        _oldContext := (w.clients cl)._context
        _path := path
        _lock := lock
        _justCreated := g._justCreated
        _ns := ns
        _db := g._db }
    _finishInit (w.setContext self c) self

/-- The constructor `Context()`, building the object at the address `self`.
The member `_ns` is default-constructed (empty); `_db` has no initializer and
is first written by `clear()`. -/
def Context0 (w : World) (self : Nat) : Result :=
  match w.currentClient with
  | none => ⟨w, some .nullDeref⟩
  | some cl =>
    let g := w.contexts self
    let c : Client.Context :=
      { _client := some cl
        _oldContext := (w.clients cl)._context
        _path := w.dbpath
        _lock := none
        _justCreated := false
        _ns := []
        _db := g._db }
    let w1 := w.setContext self c
    let w2 := w1.setClient cl { w1.clients cl with _context := some self }
    ⟨clear w2 self, none⟩

/-- The destructor `~Context()` of the object at the address `self`.  `DEV`
says whether the statement guarded by the `DEV` of `stdafx.h` is executed. -/
def dtor (DEV : Bool) (w : World) (self : Nat) : Result :=
  let c := w.contexts self
  if DEV && (c._client != w.currentClient) then ⟨w, some .asserted⟩
  else
    match c._client with
    | none => ⟨w, some .nullDeref⟩
    | some cl =>
      let w1 := w.setClient cl { w.clients cl with _context := c._oldContext }
      ⟨w1.setClient cl { w1.clients cl with _prevDB := c._db }, none⟩

end Client.Context

/-! ## `Client` -/

namespace Client

/-- The member function `curop()`. -/
def curop (c : Client) : Option Nat := c._curOp

/-- The member function `getContext()`. -/
def getContext (c : Client) : Option Nat := c._context

/-- The member function `database()`: `_context ? _context->db() : 0`. -/
def database (w : World) (c : Client) : Except Fault (Option Nat) :=
  match c._context with
  | some p => .ok (w.contexts p).db
  | none => .ok none

/-- The member function `ns()`: `_context->ns()`, with no null test. -/
def ns (w : World) (c : Client) : Except Fault Str :=
  match c._context with
  | some p => .ok (w.contexts p).ns
  | none => .error .nullDeref

/-- The member function `prevDatabase()`. -/
def prevDatabase (c : Client) : Option Nat := c._prevDB

/-- The member function `desc()`. -/
def desc (c : Client) : Str := c._desc

/-- The member function `addTempCollection( ns )`. -/
def addTempCollection (c : Client) (ns : Str) : Client :=
  { c with _tempCollections := c._tempCollections ++ [ns] }

/-- The member function `isGod()`. -/
def isGod (c : Client) : Bool := c._god

end Client

/-- The static member function `initThread( desc )`.  The constructor
`Client( desc )` is defined outside `client.h`: `ctor desc` is the object it
builds, and `p` is the address the `new` expression returns.  With the slot
empty, `currentClient.reset( p )` has no old object to delete. -/
def Client.initThread (ctor : Str → Client) (w : World) (p : Nat) (desc : Str) : Result :=
  if w.currentClient != none then ⟨w, some .asserted⟩
  else ⟨{ w.setClient p (ctor desc) with currentClient := some p }, none⟩

/-! ## `Client::GodScope` -/

namespace Client.GodScope

/-- The constructor `GodScope()`: `_prev = cc()._god; cc()._god = true;`.
`self` is the storage the object is built in. -/
def GodScope (w : World) (self : Client.GodScope) : ObjResult Client.GodScope :=
  match w.currentClient with
  | none => ⟨self, w, some .nullDeref⟩
  | some cl =>
    let self1 : Client.GodScope := { self with _prev := (w.clients cl)._god }
    ⟨self1, w.setClient cl { w.clients cl with _god := true }, none⟩

/-- The destructor `~GodScope()`: `cc()._god = _prev;`. -/
def dtor (w : World) (self : Client.GodScope) : ObjResult Client.GodScope :=
  match w.currentClient with
  | none => ⟨self, w, some .nullDeref⟩
  | some cl => ⟨self, w.setClient cl { w.clients cl with _god := self._prev }, none⟩

end Client.GodScope

/-! ## `mongolock::releaseAndWriteLock` -/

/-- The member function `mongolock::releaseAndWriteLock()`.  `BOOST_VERSION`
is the value of the Boost header constant that guards the state check.  The
line `log() << ...` writes to the log only and is left out. -/
def mongolock.releaseAndWriteLock (BOOST_VERSION : Nat) (w : World) (self : mongolock) :
    ObjResult mongolock :=
  if !self._writelock then
    if 103500 ≤ BOOST_VERSION ∧ w.dbMutex.getState ≠ -1 then
      ⟨self, w, some (.msgasserted 12600)⟩
    else
      let self1 : mongolock := { self with _writelock := true }
      let w1 : World := { w with dbMutex := w.dbMutex.unlock_shared }
      let w2 : World := { w1 with dbMutex := w1.dbMutex.lock }
      match w2.currentClient with
      | none => ⟨self1, w2, some .nullDeref⟩
      | some cl =>
        if (w2.clients cl).getContext.isSome then ⟨self1, w2, some .asserted⟩
        else ⟨self1, w2, none⟩
  else ⟨self, w, none⟩

/-- A call that `releaseAndWriteLock` makes on the global `dbMutex`. -/
inductive MutexCall where
  /-- The call `dbMutex.getState()`. -/
  | getState
  /-- The call `dbMutex.unlock_shared()`. -/
  | unlock_shared
  /-- The call `dbMutex.lock()`. -/
  | lock
  deriving DecidableEq

/-- The member function `mongolock::releaseAndWriteLock()` once more, statement
by statement, together with the log of the calls it makes on `dbMutex`, in the
order it makes them.  An entry of the log is the call and the state of the
mutex at the moment the call returns.  `getState()` is called only in a build
with `BOOST_VERSION >= 103500`; a handle that is already a write lock makes
no call at all. -/
def mongolock.releaseAndWriteLock_logged (BOOST_VERSION : Nat) (w : World)
    (self : mongolock) : ObjResult mongolock × List (MutexCall × Int) :=
  if !self._writelock then
    let log0 : List (MutexCall × Int) :=
      if 103500 ≤ BOOST_VERSION then [(MutexCall.getState, w.dbMutex.getState)] else []
    if 103500 ≤ BOOST_VERSION ∧ w.dbMutex.getState ≠ -1 then
      (⟨self, w, some (.msgasserted 12600)⟩, log0)
    else
      let self1 : mongolock := { self with _writelock := true }
      let w1 : World := { w with dbMutex := w.dbMutex.unlock_shared }
      let log1 := log0 ++ [(MutexCall.unlock_shared, w1.dbMutex.getState)]
      let w2 : World := { w1 with dbMutex := w1.dbMutex.lock }
      let log2 := log1 ++ [(MutexCall.lock, w2.dbMutex.getState)]
      match w2.currentClient with
      | none => (⟨self1, w2, some .nullDeref⟩, log2)
      | some cl =>
        if (w2.clients cl).getContext.isSome then (⟨self1, w2, some .asserted⟩, log2)
        else (⟨self1, w2, none⟩, log2)
  else (⟨self, w, none⟩, [])

/-! ## Runs of scoped objects

`Context` and `GodScope` objects are automatic variables: the object built
last is the one destroyed first.  A run is a list of events; the state of a
run holds the objects that are alive, innermost first. -/

/-- One event of a thread's run over `Context` objects. -/
inductive CtxOp where
  /-- A declaration `Context c;` whose object is built at the address `self`. -/
  | construct0 (self : Nat)
  /-- A declaration `Context c( ns , path , lock );` whose object is built at
  the address `self`. -/
  | construct (self : Nat) (ns path : Str) (lock : Option Nat)
  /-- The innermost live context goes out of scope. -/
  | destroy
  deriving DecidableEq

/-- Whether the event builds a context. -/
def CtxOp.isConstruct : CtxOp → Bool
  | .construct0 _ => true
  | .construct _ _ _ _ => true
  | .destroy => false

/-- The addresses of the live contexts after one event, innermost first;
`none` when the event cannot happen: two live objects never share an address,
and only a live object is destroyed. -/
def CtxOp.nest (live : List Nat) : CtxOp → Option (List Nat)
  | .construct0 a => if a ∈ live then none else some (a :: live)
  | .construct a _ _ _ => if a ∈ live then none else some (a :: live)
  | .destroy =>
    match live with
    | [] => none
    | _ :: rest => some rest

/-- The addresses of the live contexts after a list of events.  A list of
events is well nested when `nesting ops [] = some []`. -/
def nesting : List CtxOp → List Nat → Option (List Nat)
  | [], live => some live
  | op :: ops, live =>
    match op.nest live with
    | none => none
    | some live1 => nesting ops live1

/-- The state of a run over contexts: the world and the addresses of the live
contexts, innermost first. -/
structure CtxRun where
  world : World
  live : List Nat

/-- One event of a run; `none` when the event cannot happen or the call it
makes ends in a fault. -/
def stepCtx (DEV : Bool) (s : CtxRun) : CtxOp → Option CtxRun
  | .construct0 a =>
    if a ∈ s.live then none
    else
      let r := Client.Context.Context0 s.world a
      if r.fault.isSome then none else some ⟨r.world, a :: s.live⟩
  | .construct a ns path lock =>
    if a ∈ s.live then none
    else
      let r := Client.Context.Context s.world a ns path lock
      if r.fault.isSome then none else some ⟨r.world, a :: s.live⟩
  | .destroy =>
    match s.live with
    | [] => none
    | a :: rest =>
      let r := Client.Context.dtor DEV s.world a
      if r.fault.isSome then none else some ⟨r.world, rest⟩

/-- A list of events run from a state. -/
def runCtx (DEV : Bool) : List CtxOp → CtxRun → Option CtxRun
  | [], s => some s
  | op :: ops, s =>
    match stepCtx DEV s op with
    | none => none
    | some s1 => runCtx DEV ops s1

/-- One event of a thread's run over `GodScope` objects. -/
inductive GodOp where
  /-- A declaration `GodScope g;`. -/
  | enter
  /-- The innermost open scope is left. -/
  | exit
  deriving DecidableEq

/-- The number of open scopes after a list of events, from a number of open
scopes; `none` when a scope is left that was never entered.  A list of events
is well nested when `godDepth ops 0 = some 0`. -/
def godDepth : List GodOp → Nat → Option Nat
  | [], d => some d
  | .enter :: ops, d => godDepth ops (d + 1)
  | .exit :: _, 0 => none
  | .exit :: ops, d + 1 => godDepth ops d

/-- The state of a run over scopes: the world and the open `GodScope`
objects, innermost first. -/
structure GodRun where
  world : World
  scopes : List Client.GodScope

/-- One event of a run; `none` when the event cannot happen or the call it
makes ends in a fault.  The storage of a new `GodScope` is taken to hold
`garbage`. -/
def stepGod (garbage : Client.GodScope) (s : GodRun) : GodOp → Option GodRun
  | .enter =>
    let r := Client.GodScope.GodScope s.world garbage
    if r.fault.isSome then none else some ⟨r.world, r.self :: s.scopes⟩
  | .exit =>
    match s.scopes with
    | [] => none
    | sc :: rest =>
      let r := Client.GodScope.dtor s.world sc
      if r.fault.isSome then none else some ⟨r.world, rest⟩

/-- A list of events run from a state. -/
def runGod (garbage : Client.GodScope) : List GodOp → GodRun → Option GodRun
  | [], s => some s
  | op :: ops, s =>
    match stepGod garbage s op with
    | none => none
    | some s1 => runGod garbage ops s1

/-! ## Invariants of runs -/

/-- The context that is current when the contexts at `live` (innermost first)
are alive and `c0` was current before the first of them was built. -/
def ctxTop (c0 : Option Nat) : List Nat → Option Nat
  | [] => c0
  | a :: _ => some a

/-- Every live context belongs to the client at `cid` and saved, as its
previous context, the one that was current when it was built. -/
def ctxChain (w : World) (cid : Nat) (c0 : Option Nat) : List Nat → Prop
  | [] => True
  | a :: rest =>
    (w.contexts a)._oldContext = ctxTop c0 rest ∧ (w.contexts a)._client = some cid ∧
      ctxChain w cid c0 rest

/-- The invariant of a run over contexts on the client at `cid`, started when
`c0` was its current context. -/
structure CtxInv (cid : Nat) (c0 : Option Nat) (s : CtxRun) : Prop where
  client : s.world.currentClient = some cid
  top : (s.world.clients cid)._context = ctxTop c0 s.live
  chain : ctxChain s.world cid c0 s.live

/-- The invariant of a run over scopes: when the flag was `g` before the first
scope and is `cur` now, an open scope means `cur` is true and the scope saved
what the flag was when it was entered. -/
def godChain (g : Bool) : List Client.GodScope → Bool → Prop
  | [], cur => cur = g
  | sc :: rest, cur => cur = true ∧ godChain g rest sc._prev

/-! ## A sample state

One thread whose client (at address 0) has the context at address 5 as its
current one; the context is bound to `db.coll` under `/data` and holds the
database pointer 9; the thread holds `dbMutex` shared, once. -/

/-- A client whose current context is the one at address 5. -/
def sampleClient : Client :=
  { _curOp := some 1
    _context := some 5
    _shutdown := false
    _tempCollections := []
    _desc := ['c', 'o', 'n', 'n']
    _god := false
    _prevDB := none
    ai := some 2
    top := 0 }

/-- A context of the client at address 0, bound to `db.coll` under `/data`. -/
def sampleContext : Client.Context :=
  { _client := some 0
    _oldContext := none
    _path := ['/', 'd', 'a', 't', 'a']
    _lock := none
    _justCreated := false
    _ns := ['d', 'b', '.', 'c', 'o', 'l', 'l']
    _db := some 9 }

/-- A world that holds the sample client and the sample context; the
resolver answers with the database pointer 11. -/
def sampleWorld : World :=
  { currentClient := some 0
    clients := fun _ => sampleClient
    contexts := fun _ => sampleContext
    dbMutex := { state := -1 }
    dbpath := ['/', 'd', 'a', 't', 'a']
    resolveOrCreate := fun _ _ => (some 11, false) }

/-- The sample world with `dbMutex` held exclusively, once. -/
def exclusiveWorld : World := { sampleWorld with dbMutex := { state := 1 } }

/-- A well nested list of events: a placeholder context at address 1, inside
it a context on `db.coll` at address 2, then a second inner context at the
address 2, which is free again. -/
def sampleOps : List CtxOp :=
  [CtxOp.construct0 1, CtxOp.construct 2 ['d', 'b', '.', 'c', 'o', 'l', 'l'] ['/'] none,
    CtxOp.destroy, CtxOp.construct0 2, CtxOp.destroy, CtxOp.destroy]

/-- The sample world on a thread that has no client yet. -/
def freshThreadWorld : World := { sampleWorld with currentClient := none }

/-- The sample world whose client has no current context. -/
def idleWorld : World :=
  { sampleWorld with clients := fun _ => { sampleClient with _context := none } }

/-- The object a `Client( desc )` builds in the witnesses: no context, not
shut down, no temporary collections, the god flag off. -/
def sampleCtor (desc : Str) : Client :=
  { sampleClient with _context := none, _desc := desc }

/-! ## Lemmas on strings -/

theorem Str.startsWith_iff (s pat : Str) :
    Str.startsWith s pat = true ↔ ∃ t, s = pat ++ t := by
  induction pat generalizing s with
  | nil => cases s <;> simp [Str.startsWith]
  | cons p pat ih =>
    cases s with
    | nil => simp [Str.startsWith]
    | cons c s =>
      simp only [Str.startsWith, Bool.and_eq_true, beq_iff_eq, ih, List.cons_append,
        List.cons.injEq]
      constructor
      · rintro ⟨rfl, t, rfl⟩
        exact ⟨t, rfl, rfl⟩
      · rintro ⟨t, rfl, rfl⟩
        exact ⟨rfl, t, rfl⟩

theorem Str.le_of_findFrom (s pat : Str) (i j : Nat) (h : Str.findFrom s pat i = some j) :
    i ≤ j := by
  induction s generalizing i with
  | nil =>
    simp only [Str.findFrom] at h
    split at h
    · simp only [Option.some.injEq] at h
      omega
    · simp at h
  | cons c s ih =>
    simp only [Str.findFrom] at h
    split at h
    · simp only [Option.some.injEq] at h
      omega
    · have := ih (i + 1) h
      omega

theorem Str.find_eq_zero_iff (s pat : Str) :
    Str.find s pat = some 0 ↔ Str.startsWith s pat = true := by
  unfold Str.find
  cases s with
  | nil => simp [Str.findFrom]
  | cons c s =>
    simp only [Str.findFrom]
    split
    · simp [*]
    · rename_i h
      constructor
      · intro h0
        have := Str.le_of_findFrom _ _ _ _ h0
        omega
      · intro h1
        exact absurd h1 h

theorem Str.at_append_cons (d t : Str) (ch : Char) :
    Str.at (d ++ ch :: t) d.length = .ok ch := by
  induction d with
  | nil => simp [Str.at]
  | cons x d ih => simpa [Str.at] using ih

theorem Str.get?_append_cons (d t : Str) (ch : Char) :
    (d ++ ch :: t).get? d.length = some ch := by
  induction d with
  | nil => rfl
  | cons x d ih => simpa using ih

/-! ## Lemmas on the destructor -/

/-- What `~Context()` leaves behind when it runs on the thread of its client,
or in a build without the `DEV` check. -/
theorem Client.Context.dtor_eq (DEV : Bool) (w : World) (self cl : Nat)
    (hcl : (w.contexts self)._client = some cl)
    (hdev : DEV = false ∨ w.currentClient = some cl) :
    Client.Context.dtor DEV w self =
      ⟨{ w with clients := fun q =>
          if q = cl then
            { w.clients cl with
              _context := (w.contexts self)._oldContext, _prevDB := (w.contexts self)._db }
          else w.clients q }, none⟩ := by
  have hne : (DEV && (some cl != w.currentClient)) = false := by
    rcases hdev with h | h <;> simp [h]
  simp only [Client.Context.dtor, hcl, hne, Bool.false_eq_true, if_false, World.setClient]
  congr 2
  funext q
  by_cases hq : q = cl <;> simp [hq]

/-! ## Lemmas on runs over scopes -/

theorem godDepth_append (xs ys : List GodOp) (d : Nat) :
    godDepth (xs ++ ys) d = (godDepth xs d).bind (godDepth ys) := by
  induction xs generalizing d with
  | nil => simp [godDepth]
  | cons x xs ih =>
    cases x with
    | enter => simpa [godDepth] using ih (d + 1)
    | exit =>
      cases d with
      | zero => simp [godDepth]
      | succ d => simpa [godDepth] using ih d

theorem runGod_inv (garbage : Client.GodScope) (cid : Nat) (g : Bool) (ops : List GodOp)
    (s : GodRun) (d : Nat) (hc : s.world.currentClient = some cid)
    (hinv : godChain g s.scopes (s.world.clients cid)._god)
    (hd : godDepth ops s.scopes.length = some d) :
    ∃ s1, runGod garbage ops s = some s1 ∧ s1.scopes.length = d ∧
      s1.world.currentClient = some cid ∧
      godChain g s1.scopes (s1.world.clients cid)._god := by
  induction ops generalizing s with
  | nil =>
    simp only [godDepth, Option.some.injEq] at hd
    exact ⟨s, rfl, hd, hc, hinv⟩
  | cons op ops ih =>
    cases op with
    | enter =>
      simp only [godDepth] at hd
      have hstep : stepGod garbage s .enter =
          some ⟨s.world.setClient cid { s.world.clients cid with _god := true },
            ⟨(s.world.clients cid)._god⟩ :: s.scopes⟩ := by
        simp [stepGod, Client.GodScope.GodScope, hc]
      obtain ⟨s1, h1, h2, h3, h4⟩ := ih
        ⟨s.world.setClient cid { s.world.clients cid with _god := true },
          ⟨(s.world.clients cid)._god⟩ :: s.scopes⟩
        (by simpa [World.setClient] using hc)
        (by simpa [World.setClient, godChain] using hinv)
        (by simpa using hd)
      exact ⟨s1, by simp only [runGod, hstep, h1], h2, h3, h4⟩
    | exit =>
      obtain ⟨w, scopes⟩ := s
      cases scopes with
      | nil => simp [godDepth] at hd
      | cons sc rest =>
        simp only [godDepth, List.length_cons] at hd
        simp only [godChain] at hinv
        have hc1 : w.currentClient = some cid := hc
        have hstep : stepGod garbage ⟨w, sc :: rest⟩ .exit =
            some ⟨w.setClient cid { w.clients cid with _god := sc._prev }, rest⟩ := by
          simp [stepGod, Client.GodScope.dtor, hc1]
        obtain ⟨s1, h1, h2, h3, h4⟩ := ih
          ⟨w.setClient cid { w.clients cid with _god := sc._prev }, rest⟩
          (by simpa [World.setClient] using hc1)
          (by simpa [World.setClient] using hinv.2)
          (by simpa using hd)
        exact ⟨s1, by simp only [runGod, hstep, h1], h2, h3, h4⟩

/-! ## Lemmas on runs over contexts -/

theorem nesting_append (xs ys : List CtxOp) (L : List Nat) :
    nesting (xs ++ ys) L = (nesting xs L).bind (nesting ys) := by
  induction xs generalizing L with
  | nil => simp [nesting]
  | cons x xs ih =>
    simp only [List.cons_append, nesting]
    cases x.nest L with
    | none => simp
    | some L1 => simpa using ih L1

theorem CtxOp.nest_append (op : CtxOp) (M M1 K X : List Nat)
    (h1 : op.nest M = some M1) (h2 : op.nest (M ++ K) = some X) : X = M1 ++ K := by
  cases op with
  | construct0 a =>
    simp only [CtxOp.nest] at h1 h2
    split at h1
    · simp at h1
    · split at h2
      · simp at h2
      · simp only [Option.some.injEq] at h1 h2
        rw [← h1, ← h2]
        rfl
  | construct a ns path lock =>
    simp only [CtxOp.nest] at h1 h2
    split at h1
    · simp at h1
    · split at h2
      · simp at h2
      · simp only [Option.some.injEq] at h1 h2
        rw [← h1, ← h2]
        rfl
  | destroy =>
    cases M with
    | nil => simp [CtxOp.nest] at h1
    | cons m M =>
      simp only [CtxOp.nest, List.cons_append, Option.some.injEq] at h1 h2
      rw [← h1, ← h2]

theorem nesting_lift (ops : List CtxOp) (M M1 K X : List Nat)
    (h1 : nesting ops M = some M1) (h2 : nesting ops (M ++ K) = some X) : X = M1 ++ K := by
  induction ops generalizing M with
  | nil =>
    simp only [nesting, Option.some.injEq] at h1 h2
    rw [← h1, ← h2]
  | cons op ops ih =>
    simp only [nesting] at h1 h2
    cases hm : op.nest M with
    | none => simp [hm] at h1
    | some M2 =>
      cases hk : op.nest (M ++ K) with
      | none => simp [hk] at h2
      | some X2 =>
        rw [hm] at h1
        rw [hk] at h2
        have := CtxOp.nest_append op M M2 K X2 hm hk
        subst this
        exact ih M2 h1 h2

theorem CtxOp.nest_restrict (op : CtxOp) (M M1 K K1 X : List Nat)
    (h1 : op.nest M = some M1) (h2 : op.nest (M ++ (K ++ K1)) = some X) :
    op.nest (M ++ K) = some (M1 ++ K) := by
  cases op with
  | construct0 a =>
    simp only [CtxOp.nest] at h1 h2 ⊢
    split at h1
    · simp at h1
    · split at h2
      · simp at h2
      · rename_i hm hk
        simp only [Option.some.injEq] at h1
        have : a ∉ M ++ K := fun h => hk (by
          rw [← List.append_assoc]
          exact List.mem_append_left _ h)
        simp [this, ← h1]
  | construct a ns path lock =>
    simp only [CtxOp.nest] at h1 h2 ⊢
    split at h1
    · simp at h1
    · split at h2
      · simp at h2
      · rename_i hm hk
        simp only [Option.some.injEq] at h1
        have : a ∉ M ++ K := fun h => hk (by
          rw [← List.append_assoc]
          exact List.mem_append_left _ h)
        simp [this, ← h1]
  | destroy =>
    cases M with
    | nil => simp [CtxOp.nest] at h1
    | cons m M =>
      simp only [CtxOp.nest, Option.some.injEq] at h1
      simp [CtxOp.nest, ← h1]

theorem nesting_restrict (ops : List CtxOp) (M M1 K K1 X : List Nat)
    (h1 : nesting ops M = some M1) (h2 : nesting ops (M ++ (K ++ K1)) = some X) :
    nesting ops (M ++ K) = some (M1 ++ K) := by
  induction ops generalizing M with
  | nil =>
    simp only [nesting, Option.some.injEq] at h1 ⊢
    rw [h1]
  | cons op ops ih =>
    simp only [nesting] at h1 h2 ⊢
    cases hm : op.nest M with
    | none => simp [hm] at h1
    | some M2 =>
      cases hk : op.nest (M ++ (K ++ K1)) with
      | none => simp [hk] at h2
      | some X2 =>
        rw [hm] at h1
        rw [hk] at h2
        have hx : X2 = M2 ++ (K ++ K1) := CtxOp.nest_append op M M2 (K ++ K1) X2 hm hk
        rw [CtxOp.nest_restrict op M M2 K K1 X2 hm hk]
        exact ih M2 h1 (by rw [← hx]; exact h2)

theorem CtxOp.nest_of_isConstruct (c : CtxOp) (hc : c.isConstruct = true) :
    ∃ a, ∀ L, c.nest L = if a ∈ L then none else some (a :: L) := by
  cases c with
  | construct0 a => exact ⟨a, fun _ => rfl⟩
  | construct a ns path lock => exact ⟨a, fun _ => rfl⟩
  | destroy => simp [CtxOp.isConstruct] at hc

/-- In a list of events that leaves a context alive, the construction of the
innermost live context splits the list: what follows it is well nested, and
what precedes it leaves the other live contexts. -/
theorem nesting_matching (n : Nat) :
    ∀ (pre : List CtxOp) (a : Nat) (L : List Nat), pre.length ≤ n →
      nesting pre [] = some (a :: L) →
      ∃ p c mid, pre = p ++ c :: mid ∧ c.isConstruct = true ∧
        nesting mid [] = some [] ∧ nesting p [] = some L := by
  induction n with
  | zero =>
    intro pre a L hlen h
    have : pre = [] := List.length_eq_zero.1 (by omega)
    subst this
    simp [nesting] at h
  | succ n ih =>
    intro pre a L hlen h
    rcases List.eq_nil_or_concat pre with rfl | ⟨pre1, x, rfl⟩
    · simp [nesting] at h
    · rw [List.concat_eq_append] at h hlen ⊢
      have hlen1 : pre1.length ≤ n := by
        simp only [List.length_append, List.length_singleton] at hlen
        omega
      rw [nesting_append] at h
      cases hp : nesting pre1 [] with
      | none => simp [hp] at h
      | some L1 =>
        rw [hp] at h
        simp only [Option.some_bind, nesting] at h
        cases hx : x.nest L1 with
        | none => simp [hx] at h
        | some L2 =>
          rw [hx] at h
          simp only [Option.some.injEq] at h
          subst h
          cases x with
          | construct0 b =>
            simp only [CtxOp.nest] at hx
            split at hx
            · simp at hx
            · simp only [Option.some.injEq, List.cons.injEq] at hx
              obtain ⟨_, rfl⟩ := hx
              exact ⟨pre1, .construct0 b, [], rfl, rfl, rfl, hp⟩
          | construct b ns path lock =>
            simp only [CtxOp.nest] at hx
            split at hx
            · simp at hx
            · simp only [Option.some.injEq, List.cons.injEq] at hx
              obtain ⟨_, rfl⟩ := hx
              exact ⟨pre1, .construct b ns path lock, [], rfl, rfl, rfl, hp⟩
          | destroy =>
            cases L1 with
            | nil => simp [CtxOp.nest] at hx
            | cons b L1 =>
              simp only [CtxOp.nest, Option.some.injEq] at hx
              subst hx
              obtain ⟨p1, c1, mid1, e1, k1, m1, n1⟩ := ih pre1 b (a :: L) hlen1 hp
              have hlen2 : p1.length ≤ n := by
                have := congrArg List.length e1
                simp only [List.length_append, List.length_cons] at this
                omega
              obtain ⟨p, c, mid, e, k, m, nn⟩ := ih p1 a L hlen2 n1
              obtain ⟨b1, hb1⟩ := CtxOp.nest_of_isConstruct c1 k1
              have hrun : nesting mid1 ([] ++ ([b1] ++ (a :: L))) = some (b :: a :: L) := by
                rw [e1, nesting_append, n1] at hp
                simp only [Option.some_bind, nesting, hb1] at hp
                by_cases hmem : b1 ∈ a :: L
                · simp [hmem] at hp
                · simpa [hmem] using hp
              have hmid1 : nesting mid1 [b1] = some [b1] := by
                simpa using nesting_restrict mid1 [] [] [b1] (a :: L) _ m1 hrun
              refine ⟨p, c, mid ++ c1 :: (mid1 ++ [.destroy]), ?_, k, ?_, nn⟩
              · rw [e1, e]
                simp
              · rw [nesting_append, m]
                simp only [Option.some_bind, nesting, hb1, List.not_mem_nil, if_false]
                rw [nesting_append, hmid1]
                simp [nesting, CtxOp.nest]

theorem runCtx_append (DEV : Bool) (xs ys : List CtxOp) (s : CtxRun) :
    runCtx DEV (xs ++ ys) s = (runCtx DEV xs s).bind (runCtx DEV ys) := by
  induction xs generalizing s with
  | nil => simp [runCtx]
  | cons x xs ih =>
    simp only [List.cons_append, runCtx]
    cases stepCtx DEV s x with
    | none => simp
    | some s1 => simpa using ih s1

theorem ctxChain_congr (w w1 : World) (cid : Nat) (c0 : Option Nat) (L : List Nat)
    (h : ∀ b ∈ L, w1.contexts b = w.contexts b) (hch : ctxChain w cid c0 L) :
    ctxChain w1 cid c0 L := by
  induction L with
  | nil => trivial
  | cons a rest ih =>
    obtain ⟨h1, h2, h3⟩ := hch
    refine ⟨?_, ?_, ih (fun b hb => h b (List.mem_cons_of_mem _ hb)) h3⟩
    · rw [h a (List.mem_cons_self _ _)]
      exact h1
    · rw [h a (List.mem_cons_self _ _)]
      exact h2

/-- What the constructor `Context()` leaves behind on a thread with a client. -/
theorem Client.Context.Context0_spec (w : World) (self cid : Nat)
    (hc : w.currentClient = some cid) :
    (Client.Context.Context0 w self).fault = none ∧
    (Client.Context.Context0 w self).world.currentClient = some cid ∧
    ((Client.Context.Context0 w self).world.clients cid)._context = some self ∧
    ((Client.Context.Context0 w self).world.contexts self)._oldContext
      = (w.clients cid)._context ∧
    ((Client.Context.Context0 w self).world.contexts self)._client = some cid ∧
    (∀ b, b ≠ self → (Client.Context.Context0 w self).world.contexts b = w.contexts b) := by
  refine ⟨?_, ?_, ?_, ?_, ?_, ?_⟩ <;>
    simp +contextual [Client.Context.Context0, hc, Client.Context.clear, World.setContext,
      World.setClient]

/-- What the constructor `Context( ns , path , lock )` leaves behind on a
thread with a client. -/
theorem Client.Context.Context_spec (w : World) (self cid : Nat) (ns path : Str)
    (lock : Option Nat) (hc : w.currentClient = some cid) :
    (Client.Context.Context w self ns path lock).fault = none ∧
    (Client.Context.Context w self ns path lock).world.currentClient = some cid ∧
    ((Client.Context.Context w self ns path lock).world.clients cid)._context = some self ∧
    ((Client.Context.Context w self ns path lock).world.contexts self)._oldContext
      = (w.clients cid)._context ∧
    ((Client.Context.Context w self ns path lock).world.contexts self)._client = some cid ∧
    (∀ b, b ≠ self →
      (Client.Context.Context w self ns path lock).world.contexts b = w.contexts b) := by
  refine ⟨?_, ?_, ?_, ?_, ?_, ?_⟩ <;>
    simp +contextual [Client.Context.Context, Client.Context._finishInit, hc,
      World.setContext, World.setClient]

theorem stepCtx_inv (DEV : Bool) (cid : Nat) (c0 : Option Nat) (s : CtxRun) (op : CtxOp)
    (L : List Nat) (hinv : CtxInv cid c0 s) (hn : op.nest s.live = some L) :
    ∃ s1, stepCtx DEV s op = some s1 ∧ s1.live = L ∧ CtxInv cid c0 s1 := by
  obtain ⟨w, live⟩ := s
  obtain ⟨hc, htop, hch⟩ := hinv
  simp only at hc htop hch hn
  cases op with
  | construct0 a =>
    simp only [CtxOp.nest] at hn
    split at hn
    · simp at hn
    · rename_i hmem
      simp only [Option.some.injEq] at hn
      obtain ⟨f1, f2, f3, f4, f5, f6⟩ := Client.Context.Context0_spec w a cid hc
      refine ⟨⟨(Client.Context.Context0 w a).world, a :: live⟩, ?_, hn, ⟨f2, f3, ?_⟩⟩
      · simp [stepCtx, hmem, f1]
      · refine ⟨by rw [f4]; exact htop, f5, ctxChain_congr w _ cid c0 live ?_ hch⟩
        intro b hb
        exact f6 b (fun h => hmem (h ▸ hb))
  | construct a ns path lock =>
    simp only [CtxOp.nest] at hn
    split at hn
    · simp at hn
    · rename_i hmem
      simp only [Option.some.injEq] at hn
      obtain ⟨f1, f2, f3, f4, f5, f6⟩ := Client.Context.Context_spec w a cid ns path lock hc
      refine ⟨⟨(Client.Context.Context w a ns path lock).world, a :: live⟩, ?_, hn,
        ⟨f2, f3, ?_⟩⟩
      · simp [stepCtx, hmem, f1]
      · refine ⟨by rw [f4]; exact htop, f5, ctxChain_congr w _ cid c0 live ?_ hch⟩
        intro b hb
        exact f6 b (fun h => hmem (h ▸ hb))
  | destroy =>
    cases live with
    | nil => simp [CtxOp.nest] at hn
    | cons a rest =>
      simp only [CtxOp.nest, Option.some.injEq] at hn
      obtain ⟨h1, h2, h3⟩ := hch
      have hd := Client.Context.dtor_eq DEV w a cid h2 (Or.inr hc)
      refine ⟨⟨(Client.Context.dtor DEV w a).world, rest⟩, ?_, hn, ⟨?_, ?_, ?_⟩⟩
      · simp [stepCtx, hd]
      · simp [hd, hc]
      · simp [hd, h1]
      · rw [hd]
        exact ctxChain_congr w _ cid c0 rest (fun _ _ => rfl) h3

theorem runCtx_inv (DEV : Bool) (cid : Nat) (c0 : Option Nat) (ops : List CtxOp)
    (s : CtxRun) (L : List Nat) (hinv : CtxInv cid c0 s) (hn : nesting ops s.live = some L) :
    ∃ s1, runCtx DEV ops s = some s1 ∧ s1.live = L ∧ CtxInv cid c0 s1 := by
  induction ops generalizing s with
  | nil =>
    simp only [nesting, Option.some.injEq] at hn
    exact ⟨s, rfl, hn, hinv⟩
  | cons op ops ih =>
    simp only [nesting] at hn
    cases hm : op.nest s.live with
    | none => simp [hm] at hn
    | some L1 =>
      rw [hm] at hn
      obtain ⟨s1, e1, l1, i1⟩ := stepCtx_inv DEV cid c0 s op L1 hinv hm
      obtain ⟨s2, e2, l2, i2⟩ := ih s1 i1 (by rw [l1]; exact hn)
      exact ⟨s2, by simp only [runCtx, e1, e2], l2, i2⟩

/-! ## Theorems -/

/-- C2: for a context bound to namespace N and path P and any string d, the call
inDB(d, P) returns (it never reads past the end of N), and it returns true
exactly when N equals d or N is d followed by a dot and any suffix; with d = db
it is true for N = db and N = db.coll and false for N = database. -/
theorem Client.Context.inDB_iff (c : Client.Context) (d : Str) :
    (∃ b, c.inDB d c._path = .ok b ∧
      (b = true ↔ (c._ns = d ∨ ∃ suffix, c._ns = d ++ '.' :: suffix))) ∧
    ({ c with _ns := ['d', 'b'] } : Client.Context).inDB ['d', 'b'] c._path = .ok true ∧
    ({ c with _ns := ['d', 'b', '.', 'c', 'o', 'l', 'l'] } : Client.Context).inDB
      ['d', 'b'] c._path = .ok true ∧
    ({ c with _ns := ['d', 'a', 't', 'a', 'b', 'a', 's', 'e'] } : Client.Context).inDB
      ['d', 'b'] c._path = .ok false := by
  refine ⟨?_, ?_, ?_, ?_⟩
  · by_cases hd : d = c._ns
    · refine ⟨true, ?_, ?_⟩
      · simp [Client.Context.inDB, hd]
      · simp [hd]
    · by_cases hs : Str.startsWith c._ns d = true
      · obtain ⟨t, ht⟩ := (Str.startsWith_iff _ _).1 hs
        cases t with
        | nil => exact absurd (by simpa using ht.symm) hd
        | cons ch t =>
          refine ⟨ch == '.', ?_, ?_⟩
          · have hf : Str.find c._ns d = some 0 := (Str.find_eq_zero_iff _ _).2 hs
            have ha : Str.at c._ns d.length = .ok ch := by
              rw [ht]
              exact Str.at_append_cons d t ch
            simp [Client.Context.inDB, hd, hf, ha, Except.map]
          · rw [ht]
            simp only [beq_iff_eq, List.append_cancel_left_eq, List.cons.injEq, exists_and_left,
              exists_eq', and_true]
            constructor
            · intro h
              exact Or.inr h
            · rintro (h | h)
              · have := congrArg List.length h
                simp at this
              · exact h
      · refine ⟨false, ?_, ?_⟩
        · have hf : ¬ Str.find c._ns d = some 0 := fun h => hs ((Str.find_eq_zero_iff _ _).1 h)
          simp [Client.Context.inDB, hd, hf]
        · simp only [Bool.false_eq_true, false_iff, not_or, not_exists]
          refine ⟨fun h => hd h.symm, fun suffix h => hs ?_⟩
          exact (Str.startsWith_iff _ _).2 ⟨'.' :: suffix, h⟩
  · simp [Client.Context.inDB]
  · simp [Client.Context.inDB, Str.find, Str.findFrom, Str.startsWith, Str.at, Except.map]
  · simp [Client.Context.inDB, Str.find, Str.findFrom, Str.startsWith]

/-- C8: for a context bound to namespace N and path P, equals(ns, path) is true
exactly when N = ns and P = path. -/
theorem Client.Context.equals_iff (c : Client.Context) (ns path : Str) :
    c.equals ns path = true ↔ (c._ns = ns ∧ c._path = path) := by
  simp [Client.Context.equals]

/-- C7: destroying a context (on the thread of its client, or in a build
without the DEV check) returns normally, sets the previous-database slot of its
client to the database pointer the context holds (null once the context was
cleared or suspended) and the current context of its client to the saved
previous one; every other field of that client, every other client, every
context and the rest of the world are unchanged. -/
theorem Client.Context.dtor_effect (DEV : Bool) (w : World) (self cl : Nat)
    (hcl : (w.contexts self)._client = some cl)
    (hdev : DEV = false ∨ w.currentClient = some cl) :
    (Client.Context.dtor DEV w self).fault = none ∧
    ((Client.Context.dtor DEV w self).world.clients cl).prevDatabase
      = (w.contexts self).db ∧
    ((Client.Context.dtor DEV w self).world.clients cl).getContext
      = (w.contexts self)._oldContext ∧
    (Client.Context.dtor DEV w self).world.clients cl
      = { w.clients cl with
          _context := (w.contexts self)._oldContext, _prevDB := (w.contexts self)._db } ∧
    (∀ q, q ≠ cl → (Client.Context.dtor DEV w self).world.clients q = w.clients q) ∧
    (Client.Context.dtor DEV w self).world.contexts = w.contexts ∧
    (Client.Context.dtor DEV w self).world.currentClient = w.currentClient ∧
    (Client.Context.dtor DEV w self).world.dbMutex = w.dbMutex ∧
    ((Client.Context.dtor DEV (Client.Context.unlocked w self) self).world.clients
      cl).prevDatabase = none ∧
    ((Client.Context.dtor DEV (Client.Context.clear w self) self).world.clients
      cl).prevDatabase = none := by
  have hu : ((Client.Context.unlocked w self).contexts self)._client = some cl := by
    simpa [Client.Context.unlocked, World.setContext] using hcl
  have hc : ((Client.Context.clear w self).contexts self)._client = some cl := by
    simpa [Client.Context.clear, World.setContext] using hcl
  rw [Client.Context.dtor_eq DEV w self cl hcl hdev,
    Client.Context.dtor_eq DEV _ self cl hu hdev,
    Client.Context.dtor_eq DEV _ self cl hc hdev]
  refine ⟨rfl, ?_, ?_, ?_, ?_, rfl, rfl, rfl, ?_, ?_⟩
  · simp [Client.prevDatabase, Client.Context.db]
  · simp [Client.getContext]
  · simp
  · intro q hq
    simp [hq]
  · simp [Client.prevDatabase, Client.Context.unlocked, World.setContext]
  · simp [Client.prevDatabase, Client.Context.clear, World.setContext]

/-- Witness of C7 on the sample world: with the DEV check on, destroying the
context at address 5 returns normally and leaves the database pointer 9 in the
previous-database slot. -/
theorem Client.Context.dtor_effect_witness :
    (sampleWorld.contexts 5)._client = some 0 ∧
    (true = false ∨ sampleWorld.currentClient = some 0) ∧
    (Client.Context.dtor true sampleWorld 5).fault = none ∧
    ((Client.Context.dtor true sampleWorld 5).world.clients 0).prevDatabase = some 9 :=
  ⟨rfl, Or.inr rfl,
    (Client.Context.dtor_effect true sampleWorld 5 0 rfl (Or.inr rfl)).1,
    (Client.Context.dtor_effect true sampleWorld 5 0 rfl (Or.inr rfl)).2.1⟩

/-- C9: unlocked() sets the database pointer of its context to null and
changes nothing else: namespace, path, lock handle, just-created flag,
previous-context link and client link of the context, every other context,
every client (so also the current-context pointer of the client), and the rest
of the world are as before. -/
theorem Client.Context.unlocked_frame (w : World) (self : Nat) :
    ((Client.Context.unlocked w self).contexts self)._db = none ∧
    ((Client.Context.unlocked w self).contexts self)._ns = (w.contexts self)._ns ∧
    ((Client.Context.unlocked w self).contexts self)._path = (w.contexts self)._path ∧
    ((Client.Context.unlocked w self).contexts self)._lock = (w.contexts self)._lock ∧
    ((Client.Context.unlocked w self).contexts self)._justCreated
      = (w.contexts self)._justCreated ∧
    ((Client.Context.unlocked w self).contexts self)._oldContext
      = (w.contexts self)._oldContext ∧
    ((Client.Context.unlocked w self).contexts self)._client
      = (w.contexts self)._client ∧
    (∀ q, q ≠ self → (Client.Context.unlocked w self).contexts q = w.contexts q) ∧
    (Client.Context.unlocked w self).clients = w.clients ∧
    (∀ cl, ((Client.Context.unlocked w self).clients cl).getContext
      = (w.clients cl).getContext) ∧
    (Client.Context.unlocked w self).currentClient = w.currentClient ∧
    (Client.Context.unlocked w self).dbMutex = w.dbMutex ∧
    (Client.Context.unlocked w self).dbpath = w.dbpath ∧
    (Client.Context.unlocked w self).resolveOrCreate = w.resolveOrCreate := by
  refine ⟨?_, ?_, ?_, ?_, ?_, ?_, ?_, ?_, ?_, ?_, ?_, ?_, ?_, ?_⟩ <;>
    simp +contextual [Client.Context.unlocked, World.setContext]

/-- C10: database() never fails: it returns null when the client has no
current context and the db() of the current context otherwise. -/
theorem Client.database_total (w : World) (c : Client) :
    c.database w = .ok (match c.getContext with
      | none => none
      | some p => (w.contexts p).db) := by
  unfold Client.database Client.getContext
  cases c._context <;> rfl

/-- C3, as stated, fails: on the sample world with the mutex held exclusively,
a handle that is already marked as a write lock makes releaseAndWriteLock
return normally, with the handle and the world as they were. -/
theorem mongolock.releaseAndWriteLock_silent_when_writelock :
    0 < exclusiveWorld.dbMutex.getState ∧
    (mongolock.releaseAndWriteLock 103500 exclusiveWorld ⟨true⟩).fault = none ∧
    (mongolock.releaseAndWriteLock 103500 exclusiveWorld ⟨true⟩).self = ⟨true⟩ ∧
    (mongolock.releaseAndWriteLock 103500 exclusiveWorld ⟨true⟩).world.dbMutex
      = exclusiveWorld.dbMutex := by
  refine ⟨by decide, rfl, rfl, rfl⟩

/-- C3, amended: while the mutex is held exclusively (state above 0),
releaseAndWriteLock through a handle that is not marked as a write lock ends in
the fatal error 12600 in a build with BOOST_VERSION at least 103500, leaving
handle and world as they were; through a handle that is already marked as a
write lock it returns normally and changes neither the handle nor the world. -/
theorem mongolock.releaseAndWriteLock_exclusive (B : Nat) (w : World) (self : mongolock)
    (hs : 0 < w.dbMutex.getState) :
    (self._writelock = false → 103500 ≤ B →
      (mongolock.releaseAndWriteLock B w self).fault = some (.msgasserted 12600) ∧
      (mongolock.releaseAndWriteLock B w self).self = self ∧
      (mongolock.releaseAndWriteLock B w self).world = w) ∧
    (self._writelock = true →
      (mongolock.releaseAndWriteLock B w self).fault = none ∧
      (mongolock.releaseAndWriteLock B w self).self = self ∧
      (mongolock.releaseAndWriteLock B w self).world = w) := by
  constructor
  · intro hw hB
    have hne : w.dbMutex.getState ≠ -1 := by omega
    simp [mongolock.releaseAndWriteLock, hw, hB, hne]
  · intro hw
    simp [mongolock.releaseAndWriteLock, hw]

/-- Witness of the amended C3 on the sample world with the mutex held
exclusively: a handle that is not a write lock is refused with 12600. -/
theorem mongolock.releaseAndWriteLock_exclusive_witness :
    0 < exclusiveWorld.dbMutex.getState ∧
    (mongolock.releaseAndWriteLock 103500 exclusiveWorld ⟨false⟩).fault
      = some (.msgasserted 12600) :=
  ⟨by decide,
    ((mongolock.releaseAndWriteLock_exclusive 103500 exclusiveWorld ⟨false⟩
      (by decide)).1 rfl (by decide)).1⟩

/-- C4, as stated, fails: on the sample world (shared lock held once, the
context at address 5 current) the context is suspended with unlocked() and
releaseAndWriteLock still ends in the failed assertion on getContext(). -/
theorem mongolock.releaseAndWriteLock_asserts_after_unlocked :
    sampleWorld.dbMutex.getState = -1 ∧
    (sampleWorld.clients 0).getContext = some 5 ∧
    ((Client.Context.unlocked sampleWorld 5).contexts 5).db = none ∧
    (mongolock.releaseAndWriteLock 103500 (Client.Context.unlocked sampleWorld 5)
      ⟨false⟩).fault = some .asserted := by
  refine ⟨rfl, rfl, rfl, rfl⟩

/-- C4, amended: for a thread that has an active context, suspended with
unlocked(), releaseAndWriteLock through a handle that is not a write lock ends
in a fatal failure, in every build and whatever the state of the mutex; when
the shared lock is held once (state -1) it marks the handle, takes the
exclusive lock and then ends in the failed assertion that no context is
active.  The context stays suspended, and a relocked() after that sets the
database pointer of the context to what the resolver answers at that time for
its path and the root of its namespace, whatever was cached before. -/
theorem mongolock.releaseAndWriteLock_with_context (B : Nat) (w : World)
    (self : mongolock) (cl a : Nat) (res : Str → Str → Option Nat × Bool)
    (hc : w.currentClient = some cl) (ha : (w.clients cl).getContext = some a)
    (hw : self._writelock = false) :
    (mongolock.releaseAndWriteLock B (Client.Context.unlocked w a) self).fault ≠ none ∧
    (w.dbMutex.getState = -1 →
      (mongolock.releaseAndWriteLock B (Client.Context.unlocked w a) self).fault
        = some .asserted ∧
      (mongolock.releaseAndWriteLock B (Client.Context.unlocked w a) self).self._writelock
        = true ∧
      (mongolock.releaseAndWriteLock B (Client.Context.unlocked w a)
        self).world.dbMutex.getState = 1) ∧
    ((mongolock.releaseAndWriteLock B (Client.Context.unlocked w a) self).world.contexts
      a).db = none ∧
    ((Client.Context.relocked
        { (mongolock.releaseAndWriteLock B (Client.Context.unlocked w a) self).world with
          resolveOrCreate := res } a).world.contexts a).db
      = (res (w.contexts a)._path (Client.Context.nsRoot (w.contexts a)._ns)).1 := by
  have ha1 : (w.clients cl)._context = some a := ha
  have hctx : ∀ m : MongoMutex,
      ({ Client.Context.unlocked w a with dbMutex := m } : World).contexts
        = (Client.Context.unlocked w a).contexts := fun _ => rfl
  have hr : ∃ m,
      (mongolock.releaseAndWriteLock B (Client.Context.unlocked w a) self =
          ⟨self, Client.Context.unlocked w a, some (.msgasserted 12600)⟩ ∧
        w.dbMutex.getState ≠ -1) ∨
      (mongolock.releaseAndWriteLock B (Client.Context.unlocked w a) self =
          ⟨{ self with _writelock := true },
            { Client.Context.unlocked w a with dbMutex := m }, some .asserted⟩ ∧
        (w.dbMutex.getState = -1 → m.getState = 1)) := by
    by_cases hchk : 103500 ≤ B ∧ w.dbMutex.getState ≠ -1
    · refine ⟨w.dbMutex, Or.inl ⟨?_, hchk.2⟩⟩
      have hchk1 : 103500 ≤ B ∧ (Client.Context.unlocked w a).dbMutex.getState ≠ -1 := hchk
      simp only [mongolock.releaseAndWriteLock, hw, Bool.not_false, if_true, if_pos hchk1]
    · refine ⟨(w.dbMutex.unlock_shared).lock, Or.inr ⟨?_, ?_⟩⟩
      · have hchk1 : ¬ (103500 ≤ B ∧ (Client.Context.unlocked w a).dbMutex.getState ≠ -1) :=
          hchk
        have hcc : (Client.Context.unlocked w a).currentClient = some cl := hc
        have hcx : ((Client.Context.unlocked w a).clients cl)._context = some a := ha1
        simp only [mongolock.releaseAndWriteLock, hw, Bool.not_false, if_true, if_neg hchk1,
          hcc, Client.getContext, hcx, Option.isSome_some]
        rfl
      · intro h1
        have h2 : w.dbMutex.state = -1 := h1
        simp [MongoMutex.getState, MongoMutex.unlock_shared, MongoMutex.lock, h2]
  have hdb : ((Client.Context.unlocked w a).contexts a).db = none := by
    simp [Client.Context.unlocked, World.setContext, Client.Context.db]
  have hrel : ∀ w1 : World, w1.contexts = (Client.Context.unlocked w a).contexts →
      ((Client.Context.relocked { w1 with resolveOrCreate := res } a).world.contexts a).db
        = (res (w.contexts a)._path (Client.Context.nsRoot (w.contexts a)._ns)).1 := by
    intro w1 h1
    simp only [Client.Context.relocked, Client.Context._finishInit, h1,
      Client.Context.unlocked, World.setContext, World.setClient, Client.Context.db]
    cases (w.contexts a)._client <;> simp
  obtain ⟨m, hm | hm⟩ := hr
  · rw [hm.1]
    exact ⟨by simp, fun h => absurd h hm.2, hdb, hrel _ rfl⟩
  · rw [hm.1]
    exact ⟨by simp, fun h => ⟨rfl, rfl, hm.2 h⟩, hdb, hrel _ rfl⟩

/-- Witness of the amended C4 on the sample world: the database pointer cached
before the upgrade is 9, the pointer after relocked() is the resolved 11. -/
theorem mongolock.releaseAndWriteLock_with_context_witness :
    sampleWorld.currentClient = some 0 ∧
    (sampleWorld.clients 0).getContext = some 5 ∧
    (⟨false⟩ : mongolock)._writelock = false ∧
    (sampleWorld.contexts 5).db = some 9 ∧
    (mongolock.releaseAndWriteLock 103500 (Client.Context.unlocked sampleWorld 5)
      ⟨false⟩).fault = some .asserted ∧
    ((Client.Context.relocked
        { (mongolock.releaseAndWriteLock 103500 (Client.Context.unlocked sampleWorld 5)
            ⟨false⟩).world with
          resolveOrCreate := sampleWorld.resolveOrCreate } 5).world.contexts 5).db
      = some 11 :=
  ⟨rfl, rfl, rfl, rfl,
    ((mongolock.releaseAndWriteLock_with_context 103500 sampleWorld ⟨false⟩ 0 5
      sampleWorld.resolveOrCreate rfl rfl rfl).2.1 rfl).1,
    (mongolock.releaseAndWriteLock_with_context 103500 sampleWorld ⟨false⟩ 0 5
      sampleWorld.resolveOrCreate rfl rfl rfl).2.2.2⟩

/-- C5, as stated, fails: in a build with BOOST_VERSION 103400 the state check
is compiled out, so on the sample world with the mutex state 1 (which is not
-1) a handle that is not a write lock does not meet the fatal error 12600. -/
theorem mongolock.releaseAndWriteLock_unchecked_old_boost :
    exclusiveWorld.dbMutex.getState ≠ -1 ∧
    (mongolock.releaseAndWriteLock 103400 exclusiveWorld ⟨false⟩).fault
      ≠ some (.msgasserted 12600) := by
  refine ⟨by decide, ?_⟩
  have h : (mongolock.releaseAndWriteLock 103400 exclusiveWorld ⟨false⟩).fault
      = some .asserted := rfl
  rw [h]
  decide

/-- C5, amended: for a handle that is not yet a write lock, in a build with
BOOST_VERSION at least 103500 releaseAndWriteLock ends in the fatal error 12600
exactly when the mutex state is not -1; in a build with an older Boost it never
ends in 12600; and whenever it ends in 12600 the handle and the world, the
mutex state included, are as they were. -/
theorem mongolock.releaseAndWriteLock_12600 (B : Nat) (w : World) (self : mongolock)
    (hw : self._writelock = false) :
    (103500 ≤ B →
      ((mongolock.releaseAndWriteLock B w self).fault = some (.msgasserted 12600)
        ↔ w.dbMutex.getState ≠ -1)) ∧
    (B < 103500 →
      (mongolock.releaseAndWriteLock B w self).fault ≠ some (.msgasserted 12600)) ∧
    ((mongolock.releaseAndWriteLock B w self).fault = some (.msgasserted 12600) →
      (mongolock.releaseAndWriteLock B w self).self = self ∧
      (mongolock.releaseAndWriteLock B w self).world.dbMutex = w.dbMutex ∧
      (mongolock.releaseAndWriteLock B w self).world = w) := by
  have key : (mongolock.releaseAndWriteLock B w self).fault = some (.msgasserted 12600) →
      103500 ≤ B ∧ w.dbMutex.getState ≠ -1 := by
    intro h
    by_contra hcon
    simp only [mongolock.releaseAndWriteLock, hw, Bool.not_false, if_true, if_neg hcon] at h
    split at h
    · simp at h
    · split at h <;> simp at h
  have key2 : (103500 ≤ B ∧ w.dbMutex.getState ≠ -1) →
      mongolock.releaseAndWriteLock B w self = ⟨self, w, some (.msgasserted 12600)⟩ := by
    intro hcon
    simp only [mongolock.releaseAndWriteLock, hw, Bool.not_false, if_true, if_pos hcon]
  refine ⟨?_, ?_, ?_⟩
  · intro hB
    constructor
    · intro h
      exact (key h).2
    · intro h
      rw [key2 ⟨hB, h⟩]
  · intro hB h
    have := (key h).1
    omega
  · intro h
    rw [key2 (key h)]
    exact ⟨rfl, rfl, rfl⟩

/-- Witness of the amended C5 on the sample world with the mutex held
exclusively: the handle is not a write lock and the call ends in 12600. -/
theorem mongolock.releaseAndWriteLock_12600_witness :
    (⟨false⟩ : mongolock)._writelock = false ∧
    ((mongolock.releaseAndWriteLock 103500 exclusiveWorld ⟨false⟩).fault
        = some (.msgasserted 12600)
      ↔ exclusiveWorld.dbMutex.getState ≠ -1) :=
  ⟨rfl, (mongolock.releaseAndWriteLock_12600 103500 exclusiveWorld ⟨false⟩ rfl).1
    (by decide)⟩

/-- C6: for every initial value of the god flag of the client and every well
nested list of GodScope entries and exits, at every point of the run (after
every part `pre` of the list) the run has got there without a fault, isGod() is
true while a scope is open, and isGod() is the initial value while none is; the
number of open scopes is the nesting depth, so after the whole list none is
open and isGod() is the initial value. -/
theorem Client.GodScope.nested_isGod (garbage : Client.GodScope) (w0 : World) (cid : Nat)
    (pre post : List GodOp) (hc : w0.currentClient = some cid)
    (hwf : godDepth (pre ++ post) 0 = some 0) :
    ∃ s, runGod garbage pre ⟨w0, []⟩ = some s ∧
      godDepth pre 0 = some s.scopes.length ∧
      (s.scopes ≠ [] → (s.world.clients cid).isGod = true) ∧
      (s.scopes = [] → (s.world.clients cid).isGod = (w0.clients cid).isGod) := by
  rw [godDepth_append] at hwf
  cases hpre : godDepth pre 0 with
  | none => simp [hpre] at hwf
  | some d =>
    obtain ⟨s, h1, h2, _, h4⟩ := runGod_inv garbage cid (w0.clients cid)._god pre ⟨w0, []⟩ d
      hc (by simp [godChain]) (by simpa using hpre)
    refine ⟨s, h1, by rw [h2], ?_, ?_⟩
    · intro hne
      cases hs : s.scopes with
      | nil => exact absurd hs hne
      | cons sc rest =>
        rw [hs] at h4
        exact h4.1
    · intro he
      rw [he] at h4
      exact h4

/-- Witness of C6 on the sample world (flag false at the start): after two
nested entries and the exit of the inner scope, one scope is open and isGod()
is true. -/
theorem Client.GodScope.nested_isGod_witness :
    sampleWorld.currentClient = some 0 ∧
    godDepth ([GodOp.enter, GodOp.enter, GodOp.exit] ++ [GodOp.exit]) 0 = some 0 ∧
    ∃ s, runGod ⟨false⟩ [GodOp.enter, GodOp.enter, GodOp.exit] ⟨sampleWorld, []⟩ = some s ∧
      godDepth [GodOp.enter, GodOp.enter, GodOp.exit] 0 = some s.scopes.length ∧
      (s.scopes ≠ [] → (s.world.clients 0).isGod = true) ∧
      (s.scopes = [] → (s.world.clients 0).isGod = (sampleWorld.clients 0).isGod) :=
  ⟨rfl, rfl,
    Client.GodScope.nested_isGod ⟨false⟩ sampleWorld 0 [GodOp.enter, GodOp.enter, GodOp.exit]
      [GodOp.exit] rfl rfl⟩

/-- C1: take a thread with a client, any current context (null or not), and a
well nested list of Context constructions and destructions.  The whole run
goes through without a fault and ends with no context of the list alive and
getContext() equal to the initial context.  Every destruction in the list has
a matching construction (the events between the two are themselves well
nested), and for every destruction and every construction that matches it, the
run reaches the state before the construction, goes on through the
destruction, and getContext() after the destruction is getContext() before the
construction. -/
theorem Client.Context.lifo (DEV : Bool) (w0 : World) (cid : Nat) (ops : List CtxOp)
    (hc : w0.currentClient = some cid) (hwf : nesting ops [] = some []) :
    (∀ pre c mid post, ops = pre ++ c :: (mid ++ CtxOp.destroy :: post) →
        c.isConstruct = true → nesting mid [] = some [] →
        ∃ s1 s2, runCtx DEV pre ⟨w0, []⟩ = some s1 ∧
          runCtx DEV (c :: (mid ++ [CtxOp.destroy])) s1 = some s2 ∧
          (s2.world.clients cid).getContext = (s1.world.clients cid).getContext) ∧
    (∀ before post, ops = before ++ CtxOp.destroy :: post →
        ∃ pre c mid, before = pre ++ c :: mid ∧ c.isConstruct = true ∧
          nesting mid [] = some []) ∧
    (∃ s, runCtx DEV ops ⟨w0, []⟩ = some s ∧ s.live = [] ∧
        (s.world.clients cid).getContext = (w0.clients cid).getContext) := by
  have hinit : CtxInv cid (w0.clients cid)._context ⟨w0, []⟩ := ⟨hc, rfl, trivial⟩
  refine ⟨?_, ?_, ?_⟩
  · intro pre c mid post hops hcons hmid
    subst hops
    rw [nesting_append] at hwf
    cases hpre : nesting pre [] with
    | none => simp [hpre] at hwf
    | some L1 =>
      rw [hpre] at hwf
      simp only [Option.some_bind, nesting] at hwf
      cases hcn : c.nest L1 with
      | none => simp [hcn] at hwf
      | some L2 =>
        rw [hcn] at hwf
        simp only at hwf
        rw [nesting_append] at hwf
        cases hmn : nesting mid L2 with
        | none => simp [hmn] at hwf
        | some L3 =>
          have hL3 : L3 = L2 := by
            have := nesting_lift mid [] [] L2 L3 hmid (by simpa using hmn)
            simpa using this
          subst hL3
          obtain ⟨a, ha⟩ := CtxOp.nest_of_isConstruct c hcons
          have hL2 : L3 = a :: L1 := by
            rw [ha] at hcn
            split at hcn
            · simp at hcn
            · simpa using hcn.symm
          subst hL2
          obtain ⟨s1, e1, l1, i1⟩ := runCtx_inv DEV cid _ pre ⟨w0, []⟩ L1 hinit hpre
          have hblock : nesting (c :: (mid ++ [CtxOp.destroy])) s1.live = some L1 := by
            rw [l1]
            simp only [nesting, hcn]
            rw [nesting_append, hmn]
            simp [nesting, CtxOp.nest]
          obtain ⟨s2, e2, l2, i2⟩ := runCtx_inv DEV cid _ _ s1 L1 i1 hblock
          refine ⟨s1, s2, e1, e2, ?_⟩
          simp only [Client.getContext]
          rw [i1.top, i2.top, l1, l2]
  · intro before post hops
    subst hops
    rw [nesting_append] at hwf
    cases hpre : nesting before [] with
    | none => simp [hpre] at hwf
    | some L1 =>
      cases L1 with
      | nil => simp [hpre, nesting, CtxOp.nest] at hwf
      | cons a L =>
        obtain ⟨p, c, mid, e, k, m, _⟩ := nesting_matching before.length before a L
          (Nat.le_refl _) hpre
        exact ⟨p, c, mid, e, k, m⟩
  · obtain ⟨s, e, l, i⟩ := runCtx_inv DEV cid _ ops ⟨w0, []⟩ [] hinit hwf
    refine ⟨s, e, l, ?_⟩
    simp only [Client.getContext]
    rw [i.top, l]
    rfl

/-- Witness of C1 on the sample world, whose current context is the one at
address 5: the sample events are well nested, and the run ends with the
context at address 5 current again. -/
theorem Client.Context.lifo_witness :
    sampleWorld.currentClient = some 0 ∧ nesting sampleOps [] = some [] ∧
    (sampleWorld.clients 0).getContext = some 5 ∧
    (∃ s, runCtx true sampleOps ⟨sampleWorld, []⟩ = some s ∧ s.live = [] ∧
        (s.world.clients 0).getContext = (sampleWorld.clients 0).getContext) :=
  ⟨rfl, by decide, rfl, (Client.Context.lifo true sampleWorld 0 sampleOps rfl (by decide)).2.2⟩

/-- C11: initThread returns normally exactly when the thread-local slot is
empty, and then the slot holds the address of the new client, which is the
object the constructor built, and no other client object is touched.  On a
thread that already has a client it ends in the failed assertion and leaves
the world, the installed client included, as it was; so a second initThread
right after any first one always ends in the failed assertion, with the slot
as the first call left it. -/
theorem Client.initThread_iff (ctor : Str → Client) (w : World) (p p2 : Nat)
    (desc desc2 : Str) :
    ((Client.initThread ctor w p desc).fault = none ↔ w.currentClient = none) ∧
    (w.currentClient = none →
      (Client.initThread ctor w p desc).world.currentClient = some p ∧
      (Client.initThread ctor w p desc).world.clients p = ctor desc ∧
      (∀ q, q ≠ p → (Client.initThread ctor w p desc).world.clients q = w.clients q)) ∧
    (∀ q, w.currentClient = some q →
      (Client.initThread ctor w p desc).fault = some .asserted ∧
      (Client.initThread ctor w p desc).world.currentClient = some q ∧
      (Client.initThread ctor w p desc).world.clients q = w.clients q ∧
      (Client.initThread ctor w p desc).world = w) ∧
    (Client.initThread ctor (Client.initThread ctor w p desc).world p2 desc2).fault
      = some .asserted ∧
    (Client.initThread ctor (Client.initThread ctor w p desc).world p2 desc2).world
      = (Client.initThread ctor w p desc).world := by
  cases hc : w.currentClient with
  | none =>
    refine ⟨?_, ?_, ?_, ?_, ?_⟩
    · simp [Client.initThread, hc]
    · intro _
      refine ⟨?_, ?_, ?_⟩
      · simp [Client.initThread, hc]
      · simp [Client.initThread, hc, World.setClient]
      · intro q hq
        simp [Client.initThread, hc, World.setClient, hq]
    · intro q hq
      simp at hq
    · simp [Client.initThread, hc, World.setClient]
    · simp [Client.initThread, hc, World.setClient]
  | some c =>
    refine ⟨?_, ?_, ?_, ?_, ?_⟩
    · simp [Client.initThread, hc]
    · intro h
      simp at h
    · intro q hq
      simp only [Option.some.injEq] at hq
      subst hq
      simp [Client.initThread, hc]
    · simp [Client.initThread, hc]
    · simp [Client.initThread, hc]

/-- C12: addTempCollection(ns) leaves the list of temporary collections equal
to the old list with ns appended at the end: the old entries stay at their
positions (the old list is the initial part of the new one), the length grows
by one, the name is counted once more than before (so a name already present
is added again), and no other field of the client changes. -/
theorem Client.addTempCollection_append (c : Client) (ns : Str) :
    (c.addTempCollection ns)._tempCollections = c._tempCollections ++ [ns] ∧
    (c.addTempCollection ns)._tempCollections.length = c._tempCollections.length + 1 ∧
    (c.addTempCollection ns)._tempCollections.take c._tempCollections.length
      = c._tempCollections ∧
    (c.addTempCollection ns)._tempCollections.getLast? = some ns ∧
    (c.addTempCollection ns)._tempCollections.count ns = c._tempCollections.count ns + 1 ∧
    c.addTempCollection ns = { c with _tempCollections := c._tempCollections ++ [ns] } ∧
    ((c.addTempCollection ns).addTempCollection ns)._tempCollections
      = c._tempCollections ++ [ns, ns] := by
  refine ⟨rfl, ?_, ?_, ?_, ?_, rfl, ?_⟩ <;> simp [Client.addTempCollection]

/-- C13: on a thread with a client, the constructor Context() returns normally,
records the current context of the client as its previous link, makes itself
the current context of the client, and leaves itself cleared: the namespace
is empty, the database pointer is null and justCreated() is false. -/
theorem Client.Context.Context0_cleared (w : World) (self cid : Nat)
    (hc : w.currentClient = some cid) :
    (Client.Context.Context0 w self).fault = none ∧
    ((Client.Context.Context0 w self).world.contexts self)._oldContext
      = (w.clients cid).getContext ∧
    ((Client.Context.Context0 w self).world.clients cid).getContext = some self ∧
    ((Client.Context.Context0 w self).world.contexts self).ns = [] ∧
    ((Client.Context.Context0 w self).world.contexts self).db = none ∧
    ((Client.Context.Context0 w self).world.contexts self).justCreated = false ∧
    ((Client.Context.Context0 w self).world.contexts self)._client = some cid ∧
    ((Client.Context.Context0 w self).world.contexts self)._path = w.dbpath ∧
    ((Client.Context.Context0 w self).world.contexts self)._lock = none := by
  refine ⟨?_, ?_, ?_, ?_, ?_, ?_, ?_, ?_, ?_⟩ <;>
    simp [Client.Context.Context0, hc, Client.Context.clear, World.setContext,
      World.setClient, Client.getContext, Client.Context.ns, Client.Context.db,
      Client.Context.justCreated]

/-- Witness of C13 on the sample world, whose current context is the one at
address 5: a placeholder built at address 8 saves 5 and becomes current. -/
theorem Client.Context.Context0_cleared_witness :
    sampleWorld.currentClient = some 0 ∧
    ((Client.Context.Context0 sampleWorld 8).world.contexts 8)._oldContext = some 5 ∧
    ((Client.Context.Context0 sampleWorld 8).world.clients 0).getContext = some 8 ∧
    ((Client.Context.Context0 sampleWorld 8).world.contexts 8).ns = [] :=
  ⟨rfl, (Client.Context.Context0_cleared sampleWorld 8 0 rfl).2.1,
    (Client.Context.Context0_cleared sampleWorld 8 0 rfl).2.2.1,
    (Client.Context.Context0_cleared sampleWorld 8 0 rfl).2.2.2.1⟩

/-- Witness of C11 on a thread without a client: initThread installs the
client built for `conn` at address 3, and a second initThread asserts. -/
theorem Client.initThread_iff_witness :
    freshThreadWorld.currentClient = none ∧
    (Client.initThread sampleCtor freshThreadWorld 3 ['c', 'o', 'n', 'n']).fault = none ∧
    (Client.initThread sampleCtor
      (Client.initThread sampleCtor freshThreadWorld 3 ['c', 'o', 'n', 'n']).world 4
      ['t', 'w', 'o']).fault = some .asserted :=
  ⟨rfl,
    (Client.initThread_iff sampleCtor freshThreadWorld 3 4 ['c', 'o', 'n', 'n']
      ['t', 'w', 'o']).1.2 rfl,
    (Client.initThread_iff sampleCtor freshThreadWorld 3 4 ['c', 'o', 'n', 'n']
      ['t', 'w', 'o']).2.2.2.1⟩

/-- The logged embedding of releaseAndWriteLock returns what the plain one
returns, for every build, world and handle. -/
theorem mongolock.releaseAndWriteLock_logged_fst (B : Nat) (w : World) (self : mongolock) :
    (mongolock.releaseAndWriteLock_logged B w self).1
      = mongolock.releaseAndWriteLock B w self := by
  unfold mongolock.releaseAndWriteLock_logged mongolock.releaseAndWriteLock
  cases self._writelock with
  | true => rfl
  | false =>
    simp only [Bool.not_false, if_true]
    by_cases hchk : 103500 ≤ B ∧ w.dbMutex.getState ≠ -1
    · simp only [if_pos hchk]
    · simp only [if_neg hchk]
      cases w.currentClient with
      | none => rfl
      | some cl =>
        simp only
        by_cases hx : (w.clients cl).getContext.isSome = true
        · simp only [if_pos hx]
        · simp only [if_neg hx]

/-- C14: for a handle that is not yet a write lock, on a thread whose client
has no active context and which holds the mutex shared once (state -1),
releaseAndWriteLock returns normally with the handle marked as a write lock
and the mutex held exclusively.  The calls it makes on the mutex are, in this
order and after the state query of a build with BOOST_VERSION at least 103500,
unlock_shared and then lock, and no other; the mutex is unlocked (state 0)
when unlock_shared returns and held exclusively (state 1) when lock returns.
The mutex it leaves is the one got by unlock_shared first and lock second,
and nothing else in the world changes. -/
theorem mongolock.releaseAndWriteLock_upgrade (B : Nat) (w : World) (self : mongolock)
    (cl : Nat) (hw : self._writelock = false) (hs : w.dbMutex.getState = -1)
    (hc : w.currentClient = some cl) (hn : (w.clients cl).getContext = none) :
    (mongolock.releaseAndWriteLock_logged B w self).1
      = mongolock.releaseAndWriteLock B w self ∧
    (mongolock.releaseAndWriteLock_logged B w self).2
      = (if 103500 ≤ B then [(MutexCall.getState, -1)] else [])
        ++ [(MutexCall.unlock_shared, 0), (MutexCall.lock, 1)] ∧
    (mongolock.releaseAndWriteLock B w self).fault = none ∧
    (mongolock.releaseAndWriteLock B w self).self._writelock = true ∧
    0 < (mongolock.releaseAndWriteLock B w self).world.dbMutex.getState ∧
    (mongolock.releaseAndWriteLock B w self).world.dbMutex
      = (w.dbMutex.unlock_shared).lock ∧
    (w.dbMutex.unlock_shared).getState = 0 ∧
    (mongolock.releaseAndWriteLock B w self).world
      = { w with dbMutex := (w.dbMutex.unlock_shared).lock } := by
  have hs1 : w.dbMutex.state = -1 := hs
  have hn1 : (w.clients cl)._context = none := hn
  have hr : mongolock.releaseAndWriteLock B w self =
      ⟨{ self with _writelock := true },
        { w with dbMutex := (w.dbMutex.unlock_shared).lock }, none⟩ := by
    simp [mongolock.releaseAndWriteLock, hw, MongoMutex.getState, hs1, hc,
      Client.getContext, hn1]
  have hlog : (mongolock.releaseAndWriteLock_logged B w self).2
      = (if 103500 ≤ B then [(MutexCall.getState, -1)] else [])
        ++ [(MutexCall.unlock_shared, 0), (MutexCall.lock, 1)] := by
    by_cases hB : 103500 ≤ B <;>
      simp [mongolock.releaseAndWriteLock_logged, hw, MongoMutex.getState, hs1, hc,
        Client.getContext, hn1, MongoMutex.unlock_shared, MongoMutex.lock, hB]
  refine ⟨mongolock.releaseAndWriteLock_logged_fst B w self, hlog, ?_⟩
  rw [hr]
  refine ⟨rfl, rfl, ?_, rfl, ?_, rfl⟩
  · simp [MongoMutex.getState, MongoMutex.unlock_shared, MongoMutex.lock, hs1]
  · simp [MongoMutex.getState, MongoMutex.unlock_shared, hs1]

/-- Witness of C14 on the sample world with no current context: the upgrade
returns normally, queries the state, unlocks and locks in this order, and
leaves the mutex state 1. -/
theorem mongolock.releaseAndWriteLock_upgrade_witness :
    (⟨false⟩ : mongolock)._writelock = false ∧
    idleWorld.dbMutex.getState = -1 ∧
    idleWorld.currentClient = some 0 ∧
    (idleWorld.clients 0).getContext = none ∧
    (mongolock.releaseAndWriteLock_logged 103500 idleWorld ⟨false⟩).2
      = [(MutexCall.getState, -1), (MutexCall.unlock_shared, 0), (MutexCall.lock, 1)] ∧
    (mongolock.releaseAndWriteLock 103500 idleWorld ⟨false⟩).fault = none ∧
    (mongolock.releaseAndWriteLock 103500 idleWorld ⟨false⟩).self._writelock = true ∧
    (mongolock.releaseAndWriteLock 103500 idleWorld ⟨false⟩).world.dbMutex.getState = 1 :=
  ⟨rfl, rfl, rfl, rfl,
    (mongolock.releaseAndWriteLock_upgrade 103500 idleWorld ⟨false⟩ 0 rfl rfl rfl rfl).2.1,
    (mongolock.releaseAndWriteLock_upgrade 103500 idleWorld ⟨false⟩ 0 rfl rfl rfl rfl).2.2.1,
    (mongolock.releaseAndWriteLock_upgrade 103500 idleWorld ⟨false⟩ 0 rfl rfl rfl
      rfl).2.2.2.1,
    rfl⟩

/-- C15: for a handle that is not yet a write lock, whenever releaseAndWriteLock
returns normally the thread has a client and that client has no active
context, before and after the call; and when the client has an active
context and the state check lets the call through, the call marks the handle,
releases the shared hold, acquires the exclusive lock and then ends in the
failed assertion. -/
theorem mongolock.releaseAndWriteLock_no_context (B : Nat) (w : World) (self : mongolock)
    (hw : self._writelock = false) :
    ((mongolock.releaseAndWriteLock B w self).fault = none →
      ∃ cl, w.currentClient = some cl ∧ (w.clients cl).getContext = none ∧
        (mongolock.releaseAndWriteLock B w self).world.currentClient = some cl ∧
        ((mongolock.releaseAndWriteLock B w self).world.clients cl).getContext = none) ∧
    (∀ cl, w.currentClient = some cl → (w.clients cl).getContext ≠ none →
      (mongolock.releaseAndWriteLock B w self).fault ≠ none ∧
      (¬ (103500 ≤ B ∧ w.dbMutex.getState ≠ -1) →
        (mongolock.releaseAndWriteLock B w self).fault = some .asserted ∧
        (mongolock.releaseAndWriteLock B w self).self._writelock = true ∧
        (mongolock.releaseAndWriteLock B w self).world.dbMutex
          = (w.dbMutex.unlock_shared).lock ∧
        ((mongolock.releaseAndWriteLock B w self).world.clients cl).getContext
          = (w.clients cl).getContext)) := by
  constructor
  · intro h
    by_cases hchk : 103500 ≤ B ∧ w.dbMutex.getState ≠ -1
    · simp [mongolock.releaseAndWriteLock, hw, hchk] at h
    · simp only [mongolock.releaseAndWriteLock, hw, Bool.not_false, if_true, if_neg hchk] at h
      cases hc : w.currentClient with
      | none => simp [hc] at h
      | some cl =>
        simp only [hc] at h
        cases hx : (w.clients cl)._context with
        | some a => simp [Client.getContext, hx] at h
        | none =>
          refine ⟨cl, rfl, hx, ?_, ?_⟩
          · simp [mongolock.releaseAndWriteLock, hw, hchk, hc, Client.getContext, hx]
          · simp [mongolock.releaseAndWriteLock, hw, hchk, hc, Client.getContext, hx]
  · intro cl hc hx
    have hx1 : (w.clients cl)._context.isSome = true := by
      cases h : (w.clients cl)._context with
      | none => exact absurd h hx
      | some a => rfl
    constructor
    · by_cases hchk : 103500 ≤ B ∧ w.dbMutex.getState ≠ -1
      · simp [mongolock.releaseAndWriteLock, hw, hchk]
      · simp [mongolock.releaseAndWriteLock, hw, hchk, hc, Client.getContext, hx1]
    · intro hchk
      simp [mongolock.releaseAndWriteLock, hw, hchk, hc, Client.getContext, hx1]

/-- Witness of C15 on the sample world, whose client has the context at
address 5 active: the call ends in the failed assertion. -/
theorem mongolock.releaseAndWriteLock_no_context_witness :
    (⟨false⟩ : mongolock)._writelock = false ∧
    sampleWorld.currentClient = some 0 ∧
    (sampleWorld.clients 0).getContext ≠ none ∧
    (mongolock.releaseAndWriteLock 103500 sampleWorld ⟨false⟩).fault ≠ none :=
  ⟨rfl, rfl, by decide,
    ((mongolock.releaseAndWriteLock_no_context 103500 sampleWorld ⟨false⟩ rfl).2 0 rfl
      (by decide)).1⟩

/-- C16: for a context bound to path P and any strings d and p with p different
from P, inDB(d, p) returns false. -/
theorem Client.Context.inDB_other_path (c : Client.Context) (d p : Str)
    (hp : p ≠ c._path) : c.inDB d p = .ok false := by
  have h : ¬ c._path = p := fun h => hp h.symm
  simp [Client.Context.inDB, h]

/-- Witness of C16 on the sample context (bound to `db.coll` under `/data`):
under the path `/o` the answer is false for d equal to the bound namespace. -/
theorem Client.Context.inDB_other_path_witness :
    (['/', 'o'] : Str) ≠ sampleContext._path ∧
    sampleContext.equals sampleContext._ns sampleContext._path = true ∧
    sampleContext.inDB sampleContext._ns ['/', 'o'] = .ok false :=
  ⟨by decide, by decide,
    Client.Context.inDB_other_path sampleContext sampleContext._ns ['/', 'o'] (by decide)⟩

/-- C17: whenever equals(ns, path) is true, inDB(ns, path) is true; the converse
fails: the sample context, bound to `db.coll`, is in the database `db` and
does not equal it. -/
theorem Client.Context.inDB_of_equals :
    (∀ (c : Client.Context) (ns path : Str),
      c.equals ns path = true → c.inDB ns path = .ok true) ∧
    ∃ (c : Client.Context) (ns path : Str),
      c.inDB ns path = .ok true ∧ c.equals ns path = false := by
  constructor
  · intro c ns path h
    simp only [Client.Context.equals, Bool.and_eq_true, beq_iff_eq] at h
    simp [Client.Context.inDB, h.1, h.2]
  · refine ⟨sampleContext, ['d', 'b'], ['/', 'd', 'a', 't', 'a'], ?_, ?_⟩
    · simp [Client.Context.inDB, sampleContext, Str.find, Str.findFrom, Str.startsWith,
        Str.at, Except.map]
    · simp [Client.Context.equals, sampleContext]

/-- C18: in inDB, the access to the character of the bound namespace at the
index db.size() is reached when the paths agree, db differs from the bound
namespace and find returns 0; then db.size() is below the length of the bound
namespace, the access reads a character of it, and inDB returns its comparison
with the dot.  A db longer than the bound namespace is never found at 0, and
inDB returns for all strings. -/
theorem Client.Context.inDB_index_in_bounds (c : Client.Context) (d path : Str)
    (hp : c._path = path) (hd : d ≠ c._ns) (hf : Str.find c._ns d = some 0) :
    d.length < c._ns.length ∧
    (∃ ch, c._ns.get? d.length = some ch ∧ Str.at c._ns d.length = .ok ch ∧
      c.inDB d path = .ok (ch == '.')) ∧
    (∀ n e : Str, n.length < e.length → Str.find n e ≠ some 0) ∧
    (∀ (c2 : Client.Context) (d2 p2 : Str), ∃ b, c2.inDB d2 p2 = .ok b) := by
  have hlong : ∀ n e : Str, n.length < e.length → Str.find n e ≠ some 0 := by
    intro n e hlen h0
    obtain ⟨t, ht⟩ := (Str.startsWith_iff _ _).1 ((Str.find_eq_zero_iff _ _).1 h0)
    have := congrArg List.length ht
    simp only [List.length_append] at this
    omega
  have hreach : ∀ (c2 : Client.Context) (d2 : Str), d2 ≠ c2._ns →
      Str.find c2._ns d2 = some 0 →
      ∃ ch t, c2._ns = d2 ++ ch :: t ∧ c2.inDB d2 c2._path = .ok (ch == '.') := by
    intro c2 d2 h2 hf2
    obtain ⟨t, ht⟩ := (Str.startsWith_iff _ _).1 ((Str.find_eq_zero_iff _ _).1 hf2)
    cases t with
    | nil => exact absurd (by simpa using ht.symm) h2
    | cons ch t =>
      refine ⟨ch, t, ht, ?_⟩
      have ha : Str.at c2._ns d2.length = .ok ch := by
        rw [ht]
        exact Str.at_append_cons d2 t ch
      simp [Client.Context.inDB, h2, hf2, ha, Except.map]
  refine ⟨?_, ?_, hlong, ?_⟩
  · obtain ⟨ch, t, ht, _⟩ := hreach c d hd hf
    rw [ht]
    simp
  · obtain ⟨ch, t, ht, hin⟩ := hreach c d hd hf
    refine ⟨ch, ?_, ?_, ?_⟩
    · rw [ht]
      exact Str.get?_append_cons d t ch
    · rw [ht]
      exact Str.at_append_cons d t ch
    · rw [← hp]
      exact hin
  · intro c2 d2 p2
    by_cases h1 : c2._path = p2
    · by_cases h2 : d2 = c2._ns
      · exact ⟨true, by simp [Client.Context.inDB, h1, h2]⟩
      · by_cases h3 : Str.find c2._ns d2 = some 0
        · obtain ⟨ch, t, _, hin⟩ := hreach c2 d2 h2 h3
          exact ⟨ch == '.', by rw [← h1]; exact hin⟩
        · exact ⟨false, by simp [Client.Context.inDB, h1, h2, h3]⟩
    · exact ⟨false, by simp [Client.Context.inDB, h1]⟩

/-- Witness of C18 on the sample context with the empty db: the access is
reached and reads the first character of `db.coll`. -/
theorem Client.Context.inDB_index_in_bounds_witness :
    sampleContext._path = ['/', 'd', 'a', 't', 'a'] ∧
    ([] : Str) ≠ sampleContext._ns ∧
    Str.find sampleContext._ns [] = some 0 ∧
    ([] : Str).length < sampleContext._ns.length :=
  ⟨rfl, by decide, rfl,
    (Client.Context.inDB_index_in_bounds sampleContext [] ['/', 'd', 'a', 't', 'a'] rfl
      (by decide) rfl).1⟩

/-- C19: on a handle that is already marked as a write lock, releaseAndWriteLock
returns normally and changes neither the handle nor the world, whatever the
state of the mutex and whether or not the thread has a client or an active
context.  For every handle and world, a second call right after a first one
leaves the handle and the world as the first call left them, and returns
normally when the first one did. -/
theorem mongolock.releaseAndWriteLock_idempotent (B : Nat) (w : World) (self : mongolock) :
    (self._writelock = true →
      mongolock.releaseAndWriteLock B w self = ⟨self, w, none⟩) ∧
    (mongolock.releaseAndWriteLock B (mongolock.releaseAndWriteLock B w self).world
        (mongolock.releaseAndWriteLock B w self).self).self
      = (mongolock.releaseAndWriteLock B w self).self ∧
    (mongolock.releaseAndWriteLock B (mongolock.releaseAndWriteLock B w self).world
        (mongolock.releaseAndWriteLock B w self).self).world
      = (mongolock.releaseAndWriteLock B w self).world ∧
    ((mongolock.releaseAndWriteLock B w self).fault = none →
      (mongolock.releaseAndWriteLock B (mongolock.releaseAndWriteLock B w self).world
        (mongolock.releaseAndWriteLock B w self).self).fault = none) := by
  have hnoop : ∀ (w1 : World) (h : mongolock), h._writelock = true →
      mongolock.releaseAndWriteLock B w1 h = ⟨h, w1, none⟩ := by
    intro w1 h hh
    simp [mongolock.releaseAndWriteLock, hh]
  refine ⟨hnoop w self, ?_⟩
  cases hw : self._writelock with
  | true =>
    rw [hnoop w self hw, hnoop w self hw]
    exact ⟨rfl, rfl, fun _ => rfl⟩
  | false =>
    by_cases hchk : 103500 ≤ B ∧ w.dbMutex.getState ≠ -1
    · have h1 : mongolock.releaseAndWriteLock B w self
          = ⟨self, w, some (.msgasserted 12600)⟩ := by
        simp only [mongolock.releaseAndWriteLock, hw, Bool.not_false, if_true, if_pos hchk]
      rw [h1, h1]
      exact ⟨rfl, rfl, fun h => by simp at h⟩
    · have h1 : ∃ f, mongolock.releaseAndWriteLock B w self
          = ⟨{ self with _writelock := true },
              { w with dbMutex := (w.dbMutex.unlock_shared).lock }, f⟩ := by
        simp only [mongolock.releaseAndWriteLock, hw, Bool.not_false, if_true,
          if_neg hchk]
        cases w.currentClient with
        | none => exact ⟨_, rfl⟩
        | some cl =>
          by_cases hx : (w.clients cl).getContext.isSome = true
          · exact ⟨some .asserted, by simp [hx]⟩
          · exact ⟨none, by simp [hx]⟩
      obtain ⟨f, hf⟩ := h1
      rw [hf]
      rw [hnoop _ _ rfl]
      exact ⟨rfl, rfl, fun _ => rfl⟩

end mongo
